import Mathlib

/-!
Verification of the tsar script-execution engine against its specification.

The engine (package tstar in the repository) interprets a line-oriented test
DSL.  This file gives a shallow embedding of the engine's line parser and
expander, conditional evaluator, command handlers, process-executor outcome
logic, and background-job registry, translated from the Go source.  External
effects (filesystem stats, process execution results, HTTP responses) are
passed in as explicit oracle parameters, so every definition is executable.

Strings are modelled as `List Char`.  Go maps with string keys are modelled
as association lists whose keys are unique (lookup takes the first match,
which agrees with a map when keys are unique).
-/

deriving instance DecidableEq for Except

namespace Tsar

/-- Fatal-error taxonomy: each constructor corresponds to one `Fatalf` /
`Fatal` call site (or modelled fatal condition) of the engine. -/
inductive Err where
  | usageExec
  | usageCd
  | usageCp
  | usageExists
  | usageGrep
  | usageStdout
  | usageStderr
  | unterminatedCondition
  | unknownCondition
  | bangAlone
  | workdirNotInit
  | dirNotExist
  | statError
  | notADirectory
  | cpNotImplemented
  | fileMissing
  | fileExistsUnexpectedly
  | grepReadError
  | grepMissing
  | grepUnexpected
  | stdoutMissing
  | stdoutUnexpected
  | stderrMissing
  | stderrUnexpected
  | progNotFound
  | execStartFailed
  | execFailed
  | unexpectedSuccess
  | unexpectedFailure
  | unknownBgProcess
  | duplicateBgName
  | httpNoPrior
  | httpStatusMismatch
  | httpHeaderMismatch
  | repeatBadVerb
  deriving DecidableEq, Repr

/-- Character class used by strings.Fields and strings.TrimSpace
(unicode.IsSpace restricted to the Latin-1 range; the higher Unicode
space code points never occur in the scripts the claims concern). -/
def goIsSpace (c : Char) : Bool :=
  c = ' ' || c = '\t' || c = '\n' || c = '\x0b' || c = '\x0c' || c = '\r' ||
  c = '\u0085' || c = ' '

/-- os.Expand helper isShellSpecialVar: reports whether the character
identifies a special shell variable such as $*. -/
def isShellSpecialVar (c : Char) : Bool :=
  c = '*' || c = '#' || c = '$' || c = '@' || c = '!' || c = '?' || c = '-' ||
  (decide ('0' ≤ c) && decide (c ≤ '9'))

/-- os.Expand helper isAlphaNum: reports whether the character is a valid
shell-name character (underscore, ASCII digit or ASCII letter). -/
def isAlphaNum (c : Char) : Bool :=
  c = '_' || (decide ('0' ≤ c) && decide (c ≤ '9')) ||
  (decide ('a' ≤ c) && decide (c ≤ 'z')) || (decide ('A' ≤ c) && decide (c ≤ 'Z'))

/-- Splits a list at the first occurrence of the character t, returning the
parts before and after it (strings.Index followed by slicing). -/
def breakAt (t : Char) : List Char → Option (List Char × List Char)
  | [] => none
  | c :: cs =>
    if c = t then some ([], cs)
    else (breakAt t cs).map (fun p => (c :: p.1, p.2))

/-- The brace-scanning arm of os.Expand getShellName: the argument is the
text after the opening brace; returns the name and the number of characters
consumed counted from the opening brace inclusive. -/
def scanBraceName (rest : List Char) : List Char × Nat :=
  match breakAt '}' rest with
  | none => ([], 1)
  | some (before, _) => if before = [] then ([], 2) else (before, before.length + 2)

/-- os package getShellName: returns the name that begins the string and the
number of characters it consumes.  Called by expand on the text following a
dollar sign. -/
def getShellName (s : List Char) : List Char × Nat :=
  match s with
  | [] => ([], 0)
  | c :: rest =>
    if c = '{' then
      match rest with
      | c1 :: c2 :: _ =>
        if isShellSpecialVar c1 && c2 = '}' then ([c1], 3) else scanBraceName rest
      | _ => scanBraceName rest
    else if isShellSpecialVar c then ([c], 1)
    else
      let run := (c :: rest).takeWhile isAlphaNum
      (run, run.length)

/-- os.Expand: replaces each dollar-name or dollar-brace-name reference in
the string by the value of the mapping function.  (A trailing dollar sign,
where getShellName yields an empty name consuming nothing, is kept
literally, exactly as in the Go loop.) -/
def expand (f : List Char → List Char) : List Char → List Char
  | [] => []
  | c :: rest =>
    if c = '$' then
      let p := getShellName rest
      if p.1 = [] then
        if p.2 = 0 then '$' :: expand f rest
        else expand f (rest.drop p.2)
      else f p.1 ++ expand f (rest.drop p.2)
    else c :: expand f rest
  termination_by s => s.length
  decreasing_by
    · simp
    · simp [List.length_drop]
      omega
    · simp [List.length_drop]
      omega
    · simp

/-- Accumulator form of strings.Fields. -/
def fieldsAux : List Char → List Char → List (List Char)
  | [], acc => if acc = [] then [] else [acc.reverse]
  | c :: cs, acc =>
    if goIsSpace c then
      if acc = [] then fieldsAux cs [] else acc.reverse :: fieldsAux cs []
    else fieldsAux cs (c :: acc)

/-- strings.Fields: splits the string around maximal runs of white space,
yielding no empty fields. -/
def fields (s : List Char) : List (List Char) :=
  fieldsAux s []

/-- strings.TrimSpace: removes leading and trailing white space. -/
def trimSpace (s : List Char) : List Char :=
  ((s.dropWhile goIsSpace).reverse.dropWhile goIsSpace).reverse

/-- Lookup in an association-list rendering of a Go string map. -/
def envLookup (m : List (List Char × List Char)) (k : List Char) : Option (List Char) :=
  (m.find? (fun p => p.1 == k)).map (fun p => p.2)

/-- os.Getenv over a modelled process environment: the empty string when the
variable is absent. -/
def getenv (proc : List (List Char × List Char)) (k : List Char) : List Char :=
  (envLookup proc k).getD []

/-- The mapping closure inside TestScript.expandEnvVars: the script-local
envMap takes precedence, with fallback to os.Getenv. -/
def envVarMapping (envMap proc : List (List Char × List Char)) (k : List Char) : List Char :=
  match envLookup envMap k with
  | some v => v
  | none => getenv proc k

/-- TestScript.expandEnvVars: expands environment variables of the form
dollar-VAR or dollar-brace-VAR using the script env with process-env
fallback. -/
def expandEnvVars (envMap proc : List (List Char × List Char)) (s : List Char) : List Char :=
  expand (envVarMapping envMap proc) s

/-- TestScript.parse: expands environment variables, then splits the line
into words with strings.Fields.  (This is the parser actually present in
the source; it treats quote characters as ordinary characters.) -/
def parse (envMap proc : List (List Char × List Char)) (line : List Char) : List (List Char) :=
  fields (expandEnvVars envMap proc line)

/-- Host facts consulted by the built-in condition tags: testing.Short and
the three runtime.GOOS comparisons. -/
structure CondFlags where
  short : Bool
  windows : Bool
  darwin : Bool
  linux : Bool

/-- The built-in arm of TestScript.condition: the four recognized tags, the
bang prefix recursing on the rest with the result inverted, and the fatal
unknown-condition error otherwise. -/
def conditionBuiltin (p : CondFlags) (c : List Char) : Except Err Bool :=
  if c = "short".data then .ok p.short
  else if c = "windows".data then .ok p.windows
  else if c = "darwin".data then .ok p.darwin
  else if c = "linux".data then .ok p.linux
  else
    match c with
    | '!' :: rest => (conditionBuiltin p rest).map (fun b => !b)
    | _ => .error .unknownCondition
  termination_by c.length

/-- TestScript.condition: a user-supplied predicate takes precedence when
configured; otherwise the built-in tags are evaluated. -/
def condition (userCond : Option (List Char → Except Err Bool)) (p : CondFlags)
    (c : List Char) : Except Err Bool :=
  match userCond with
  | some f => f c
  | none => conditionBuiltin p c

/-- What TestScript.parseLine decides to do with one script line, before any
command handler runs. -/
inductive LineAction where
  | noop
  | skipped
  | fatal (e : Err)
  | dispatch (neg : Bool) (args : List (List Char))
  deriving DecidableEq, Repr

/-- The tail of TestScript.parseLine after condition handling: tokenize the
remaining text, strip a leading bang, and hand the words to the
dispatcher. -/
def dispatchBody (envMap proc : List (List Char × List Char)) (body : List Char) : LineAction :=
  match parse envMap proc body with
  | [] => .noop
  | a :: args =>
    if a = "!".data then
      match args with
      | [] => .fatal .bangAlone
      | _ :: _ => .dispatch true args
    else .dispatch false (a :: args)

/-- The condition gate of TestScript.parseLine: an empty tag is not
evaluated; otherwise an evaluation error is fatal and a false condition
skips the line. -/
def runCond (condEval : List Char → Except Err Bool)
    (envMap proc : List (List Char × List Char))
    (cond body : List Char) : LineAction :=
  if cond = [] then dispatchBody envMap proc body
  else
    match condEval cond with
    | .error e => .fatal e
    | .ok false => .skipped
    | .ok true => dispatchBody envMap proc body

/-- The body of TestScript.parseLine on the already-trimmed line: ignore
blanks and comments, strip a leading bracketed condition (a missing closing
bracket is fatal, and a line that is empty after the bracket returns before
the condition is ever evaluated), then evaluate the condition, tokenize and
dispatch. -/
def parseLineTrimmed (condEval : List Char → Except Err Bool)
    (envMap proc : List (List Char × List Char)) : List Char → LineAction
  | [] => .noop
  | c :: rest =>
    if c = '#' then .noop
    else if c = '[' then
      match breakAt ']' rest with
      | none => .fatal .unterminatedCondition
      | some (cond, after) =>
        let body := trimSpace after
        if body = [] then .noop
        else runCond condEval envMap proc cond body
    else dispatchBody envMap proc (c :: rest)

/-- TestScript.parseLine: trim the line, then process it. -/
def parseLine (condEval : List Char → Except Err Bool)
    (envMap proc : List (List Char × List Char))
    (line : List Char) : LineAction :=
  parseLineTrimmed condEval envMap proc (trimSpace line)

/-- strings.Contains: the second argument occurs as a contiguous substring
of the first (always true for an empty substring). -/
def containsSub (s : List Char) (sub : List Char) : Bool :=
  if sub.isPrefixOf s then true
  else
    match s with
    | [] => false
    | _ :: t => containsSub t sub

/-- One backgrounded command: its registry name, the negation expectation
recorded at spawn time, the output it will have accumulated when joined,
and whether its process exits successfully. -/
structure BgJob where
  name : List Char
  neg : Bool
  out : List Char
  err : List Char
  success : Bool
  deriving DecidableEq, Repr

/-- The TestScript fields the modelled commands read and write. -/
structure TestScriptState where
  workdir : List Char
  cd : List Char
  stdout : List Char
  stderr : List Char
  background : List BgJob
  deriving DecidableEq, Repr

/-- Outcomes os.Stat can report for a path, as distinguished by cmdCD. -/
inductive StatResult where
  | notExist
  | file
  | dir
  | otherErr
  deriving DecidableEq, Repr

/-- filepath.IsAbs on Unix. -/
def isAbsPath (p : List Char) : Bool :=
  match p with
  | '/' :: _ => true
  | _ => false

/-- filepath.Join of a directory and a relative path.  (The lexical
cleaning Join performs is not modelled; no claim depends on path
normalization.) -/
def joinPath (a b : List Char) : List Char :=
  a ++ '/' :: b

/-- TestScript.cmdCD, with the filesystem abstracted as a stat oracle.
Note that the negation flag is a parameter of the handler but is never
consulted. -/
def cmdCD (stat : List Char → StatResult) (neg : Bool) (args : List (List Char))
    (st : TestScriptState) : Except Err TestScriptState :=
  match args with
  | [_, d] =>
    if !isAbsPath d && st.cd = [] && st.workdir = [] then .error .workdirNotInit
    else
      let base := if st.cd = [] then st.workdir else st.cd
      let dir := if isAbsPath d then d else joinPath base d
      match stat dir with
      | .notExist => .error .dirNotExist
      | .otherErr => .error .statError
      | .file => .error .notADirectory
      | .dir => .ok { st with cd := dir }
  | _ => .error .usageCd

/-- TestScript.cmdCp: a wrong argument count is a usage error, and any call
with enough arguments fails with the not-fully-implemented error; no file
is ever copied. -/
def cmdCp (neg : Bool) (args : List (List Char)) : Except Err Unit :=
  if args.length < 3 then .error .usageCp
  else .error .cpNotImplemented

/-- TestScript.cmdExists, with os.Stat abstracted as an existence oracle
over the (made-absolute) file name. -/
def cmdExists (statOk : List Char → Bool) (neg : Bool) (args : List (List Char)) :
    Except Err Unit :=
  match args with
  | [_, file] =>
    let ex := if neg then !statOk file else statOk file
    if !ex then
      .error (if neg then .fileExistsUnexpectedly else .fileMissing)
    else .ok ()
  | _ => .error .usageExists

/-- TestScript.cmdGrep, with os.ReadFile abstracted as an oracle returning
the file content or none for a read error.  A read error is fatal
regardless of negation; otherwise a containment check against the negation
flag decides the outcome. -/
def cmdGrep (readFile : List Char → Option (List Char)) (neg : Bool)
    (args : List (List Char)) : Except Err Unit :=
  match args with
  | [_, pattern, filename] =>
    match readFile filename with
    | none => .error .grepReadError
    | some content =>
      if containsSub content pattern = neg then
        .error (if neg then .grepUnexpected else .grepMissing)
      else .ok ()
  | _ => .error .usageGrep

/-- TestScript.cmdStdout: containment of the pattern in the retained
standard output, compared against the negation flag. -/
def cmdStdout (neg : Bool) (args : List (List Char)) (st : TestScriptState) :
    Except Err Unit :=
  match args with
  | [_, pattern] =>
    if containsSub st.stdout pattern = neg then
      .error (if neg then .stdoutUnexpected else .stdoutMissing)
    else .ok ()
  | _ => .error .usageStdout

/-- TestScript.cmdStderr: containment of the pattern in the retained
standard error, compared against the negation flag. -/
def cmdStderr (neg : Bool) (args : List (List Char)) (st : TestScriptState) :
    Except Err Unit :=
  match args with
  | [_, pattern] =>
    if containsSub st.stderr pattern = neg then
      .error (if neg then .stderrUnexpected else .stderrMissing)
    else .ok ()
  | _ => .error .usageStderr

/-- TestScript.findBackground: the first live job with the given name, if
any. -/
def findBackground (name : List Char) (bgs : List BgJob) : Option BgJob :=
  bgs.find? (fun bg => bg.name == name)

/-- TestScript.removeBackground: deletes the first registry entry with the
given name, leaving all other entries in place. -/
def removeBackground (name : List Char) : List BgJob → List BgJob
  | [] => []
  | bg :: rest => if bg.name = name then rest else bg :: removeBackground name rest

/-- The name-resolution loop at the start of cmdWait: each requested name
must denote a live job, otherwise the unknown-background-process error is
fatal before any job is joined. -/
def lookupJobs (bgs : List BgJob) : List (List Char) → Except Err (List BgJob)
  | [] => .ok []
  | n :: ns =>
    match findBackground n bgs with
    | none => .error .unknownBgProcess
    | some bg =>
      match lookupJobs bgs ns with
      | .error e => .error e
      | .ok rest => .ok (bg :: rest)

/-- The join loop of cmdWait: receive each job's completion, collect its
non-empty output buffers, and compare its exit outcome against the negation
expectation recorded at spawn time; a mismatch is fatal. -/
def joinJobs : List BgJob → Except Err (List (List Char) × List (List Char))
  | [] => .ok ([], [])
  | bg :: rest =>
    let outs := if bg.out = [] then [] else [bg.out]
    let errs := if bg.err = [] then [] else [bg.err]
    if bg.success = bg.neg then
      .error (if bg.neg then .unexpectedSuccess else .unexpectedFailure)
    else
      match joinJobs rest with
      | .error e => .error e
      | .ok p => .ok (outs ++ p.1, errs ++ p.2)

/-- TestScript.cmdWait: with no arguments join every live job and clear the
registry; with names join exactly the named jobs and remove only those
entries.  The retained stdout and stderr become the concatenation of the
joined jobs' captured outputs. -/
def cmdWait (args : List (List Char)) (st : TestScriptState) : Except Err TestScriptState :=
  if args.length = 1 then
    match joinJobs st.background with
    | .error e => .error e
    | .ok p =>
      .ok { st with stdout := p.1.flatten, stderr := p.2.flatten, background := [] }
  else
    match lookupJobs st.background args.tail with
    | .error e => .error e
    | .ok bgcmds =>
      match joinJobs bgcmds with
      | .error e => .error e
      | .ok p =>
        .ok { st with
          stdout := p.1.flatten, stderr := p.2.flatten,
          background := args.tail.foldl (fun acc n => removeBackground n acc) st.background }

/-- Regexp word character: the backslash-w class of the background
specifier pattern. -/
def isWordChar (c : Char) : Bool :=
  isAlphaNum c

/-- First character of the optional identifier group of the background
specifier pattern. -/
def isIdentStart (c : Char) : Bool :=
  c = '_' || (decide ('a' ≤ c) && decide (c ≤ 'z')) || (decide ('A' ≤ c) && decide (c ≤ 'Z'))

/-- The backgroundSpecifier regular expression: an ampersand, an optional
identifier, and an optional trailing ampersand, anchored at both ends.
Because identifier characters and the ampersand are disjoint, the greedy
match is equivalent to this structural check. -/
def isBackgroundSpecifier (s : List Char) : Bool :=
  match s with
  | '&' :: rest =>
    let rest2 :=
      match rest with
      | c :: cs => if isIdentStart c then cs.dropWhile isWordChar else rest
      | [] => rest
    rest2 = [] || rest2 = ['&']
  | _ => false

/-- strings.TrimPrefix with the one-character prefix ampersand. -/
def trimPrefixAmp (s : List Char) : List Char :=
  match s with
  | '&' :: r => r
  | _ => s

/-- strings.TrimSuffix with the one-character suffix ampersand. -/
def trimSuffixAmp (s : List Char) : List Char :=
  if s.getLast? = some '&' then s.dropLast else s

/-- The background-job name computed by cmdExecBuiltin: the specifier with
its surrounding ampersands stripped, or an implicit name built from the
current number of live background jobs when the identifier was omitted. -/
def bgNameOf (spec : List Char) (count : Nat) : List Char :=
  let n := trimSuffixAmp (trimPrefixAmp spec)
  if n = [] then 'b' :: 'g' :: Nat.toDigits 10 count else n

/-- Result of running a foreground process, as classified by the error
handling of cmdExecBuiltin: a clean exit, a nonzero exit (exec.ExitError),
or a failure to even start (any other error, including resolution
failures). -/
inductive FgResult where
  | success (out err : List Char)
  | exitErr (out err : List Char)
  | startErr
  deriving DecidableEq, Repr

/-- TestScript.cmdExecBuiltin.  The process world is abstracted: resolveOk
says whether buildExecCmd succeeds for the background spawn, fg is the
foreground run's outcome, and jobSuccess/jobOut/jobErr are the eventual
exit outcome and captured output of the spawned background job.  A
background spawn records the job (after the duplicate-name check) and
clears the retained output; the shared error-handling tail makes a nonzero
exit fatal unless negated and a success fatal if negated. -/
def cmdExecBuiltin (resolveOk : Bool) (fg : FgResult)
    (jobSuccess : Bool) (jobOut jobErr : List Char)
    (neg : Bool) (args : List (List Char)) (st : TestScriptState) :
    Except Err TestScriptState :=
  if args.length < 2 then .error .usageExec
  else if 2 < args.length && isBackgroundSpecifier (args.getLast?.getD []) then
    let bgName := bgNameOf (args.getLast?.getD []) st.background.length
    if (findBackground bgName st.background).isSome then .error .duplicateBgName
    else if resolveOk then
      let st1 := { st with
        background := st.background ++ [⟨bgName, neg, jobOut, jobErr, jobSuccess⟩],
        stdout := ([] : List Char), stderr := ([] : List Char) }
      if neg then .error .unexpectedSuccess else .ok st1
    else .error .execStartFailed
  else
    match fg with
    | .startErr => .error .execStartFailed
    | .exitErr o e =>
      if neg then .ok { st with stdout := o, stderr := e } else .error .execFailed
    | .success o e =>
      if neg then .error .unexpectedSuccess else .ok { st with stdout := o, stderr := e }

/-- Accumulator form of strings.Split with a one-character colon
separator: splits at every colon, keeping empty entries. -/
def splitOnColonAux : List Char → List Char → List (List Char)
  | [], acc => [acc.reverse]
  | c :: cs, acc =>
    if c = ':' then acc.reverse :: splitOnColonAux cs []
    else splitOnColonAux cs (c :: acc)

/-- strings.Split on a colon separator. -/
def splitOnColon (s : List Char) : List (List Char) :=
  splitOnColonAux s []

/-- filepath.SplitList on Unix. -/
def splitList (s : List Char) : List (List Char) :=
  if s = [] then [] else splitOnColon s

/-- The directory scan of exec.LookPath: an empty PATH entry means the
current directory; the first directory whose joined candidate is an
executable file (membership in the execFiles oracle) wins. -/
def lookPathDirs (execFiles : List (List Char)) (file : List Char) :
    List (List Char) → Option (List Char)
  | [] => none
  | d :: ds =>
    let dir := if d = [] then ['.'] else d
    let cand := joinPath dir file
    if execFiles.contains cand then some cand else lookPathDirs execFiles file ds

/-- exec.LookPath for a name without a path separator: searches the
directories of the given PATH string.  The source passes the enclosing
process's PATH (the one os.Getenv sees), not the script's. -/
def lookPath (execFiles : List (List Char)) (pathEnv : List Char) (file : List Char) :
    Option (List Char) :=
  lookPathDirs execFiles file (splitList pathEnv)

/-- The program-resolution step of TestScript.buildExecCmd: a name
containing a path separator is used as is; otherwise exec.LookPath is
consulted with the enclosing process's PATH value, and a lookup failure is
the not-found error (fatal unconditionally in the caller). -/
def buildExecCmdProg (execFiles : List (List Char)) (procPATH : List Char)
    (name : List Char) : Except Err (List Char) :=
  if name.contains '/' then .ok name
  else
    match lookPath execFiles procPATH name with
    | some p => .ok p
    | none => .error .progNotFound

/-- Modelled from the spec: the resolution rule of section 4.4, where a
name without a path separator is "looked up via the script's current
PATH-equivalent variable" — the script environment mapping's PATH entry —
rather than the process environment.  This is the behaviour the test
TestLookPathUsesTestEnvPATH requires; the buildExecCmd in the source calls
exec.LookPath instead. -/
def buildExecCmdProgSpec (execFiles : List (List Char))
    (envMap : List (List Char × List Char)) (name : List Char) :
    Except Err (List Char) :=
  if name.contains '/' then .ok name
  else
    match lookPath execFiles ((envLookup envMap ("PATH".data)).getD []) name with
    | some p => .ok p
    | none => .error .progNotFound

/-- The response of one HTTP call: status code, header mapping, body. -/
structure HttpResp where
  status : Nat
  header : List (List Char × List Char)
  body : List Char
  deriving DecidableEq, Repr

/-- Modelled from the spec: the HTTP assertion state of section 4.6 — the
http, httpstatus and httpheader commands are absent from the source (the
builtin table has no entries for them; only the tests and package
documentation reference them), so the retained-response state machine is
modelled from the spec's words.  cmdHttp issues one request (the response
is an oracle parameter), retains it as the last response, and applies the
process-exit negation rule to the 2xx-is-success outcome. -/
def cmdHttp (resp : HttpResp) (neg : Bool) (st : Option HttpResp) :
    Except Err (Option HttpResp) :=
  let success := decide (200 ≤ resp.status) && decide (resp.status < 300)
  if success = neg then .error (if neg then .unexpectedSuccess else .execFailed)
  else .ok (some resp)

/-- Header lookup used by the modelled httpheader command. -/
def headerGet (hs : List (List Char × List Char)) (name : List Char) : List Char :=
  ((hs.find? (fun p => p.1 == name)).map (fun p => p.2)).getD []

/-- Modelled from the spec: httpstatus CODE consults the retained response;
invoking it before any http call is a usage error, fatal immediately. -/
def cmdHttpStatus (code : Nat) (st : Option HttpResp) : Except Err Unit :=
  match st with
  | none => .error .httpNoPrior
  | some r => if r.status = code then .ok () else .error .httpStatusMismatch

/-- Modelled from the spec: httpheader NAME VALUE consults the retained
response's header mapping; invoking it before any http call is a usage
error, fatal immediately. -/
def cmdHttpHeader (name value : List Char) (st : Option HttpResp) : Except Err Unit :=
  match st with
  | none => .error .httpNoPrior
  | some r =>
    if containsSub (headerGet r.header name) value then .ok ()
    else .error .httpHeaderMismatch

/-- Pass/fail statistics of one repeat invocation. -/
structure RepeatStats where
  executed : Nat
  passed : Nat
  failed : Nat
  firstFail : Option Nat
  deriving DecidableEq, Repr

/-- Modelled from the spec: the iteration loop of the repeat harness
(section 4.7), absent from the source (the builtin table has no repeat
entry; only the tests reference it).  outcome gives each 1-based
iteration's pass/fail result after per-iteration negation; without the all
flag the first failing iteration stops the loop. -/
def repeatLoop (all : Bool) (outcome : Nat → Bool) : Nat → Nat → RepeatStats
  | _, 0 => ⟨0, 0, 0, none⟩
  | i, r + 1 =>
    if outcome i then
      let rest := repeatLoop all outcome (i + 1) r
      ⟨rest.executed + 1, rest.passed + 1, rest.failed, rest.firstFail⟩
    else if all then
      let rest := repeatLoop all outcome (i + 1) r
      ⟨rest.executed + 1, rest.passed, rest.failed + 1, some i⟩
    else ⟨1, 0, 1, some i⟩

/-- Modelled from the spec: the repeat command accepts only exec and http
as the wrapped verb; any other verb is a fatal configuration error,
detected before any iteration runs (the outcome oracle is not consulted on
that branch). -/
def repeatRun (all : Bool) (count : Nat) (verb : List Char) (outcome : Nat → Bool) :
    Except Err RepeatStats :=
  if verb = "exec".data ∨ verb = "http".data then .ok (repeatLoop all outcome 1 count)
  else .error .repeatBadVerb

/-! ## Theorems settling the claims -/

/-- C1: evaluation of the source's parser at the claim's example input.
The parser in the source expands environment variables and then splits on
white space; the 13-character line consisting of a double-quoted
hello-space-world is tokenized into two words that keep their quote
characters, not into the single token the claim (and the repository's own
tests TestSplitArgs and TestParseWithQuotes) require, and the unterminated
variant also yields tokens instead of a parse error — the parser has no
error outcome at all. -/
theorem C1_parse_ignores_quotes :
    parse [] [] ("\"hello world\"".data) = ["\"hello".data, "world\"".data] ∧
    parse [] [] ("\"hello world\"".data) ≠ ["hello world".data] ∧
    parse [] [] ("\"hello world".data) = ["\"hello".data, "world".data] ∧
    parse [] [] [] = [] := by
  refine ⟨?_, ?_, ?_, ?_⟩ <;>
    simp +decide [parse, expandEnvVars, expand, fields, fieldsAux]

/-- C4: the resolution step of buildExecCmd consults the enclosing
process's PATH (exec.LookPath over os.Getenv), so a program present only in
the script environment's PATH directory is not found, while the
spec-modelled resolution over the script's PATH entry finds it.  This is
the scenario of the repository's own test TestLookPathUsesTestEnvPATH. -/
theorem C4_lookpath_uses_process_path :
    buildExecCmdProg ["/custom/myhelper".data] ("/usr/bin".data) ("myhelper".data)
      = .error .progNotFound ∧
    buildExecCmdProgSpec ["/custom/myhelper".data]
      [("PATH".data, "/custom".data)] ("myhelper".data)
      = .ok ("/custom/myhelper".data) := by
  refine ⟨by decide, by decide⟩

/-- C9: every cp invocation with at least three tokens fails with the
not-fully-implemented error, and cp never succeeds for any arguments or
negation flag (so it never copies anything). -/
theorem C9_cmdCp_never_copies :
    (∀ neg args, 3 ≤ args.length → cmdCp neg args = .error .cpNotImplemented) ∧
    (∀ neg args, (cmdCp neg args).isOk = false) := by
  constructor
  · intro neg args h
    have : ¬ (args.length < 3) := by omega
    simp [cmdCp, this]
  · intro neg args
    by_cases h : args.length < 3 <;> simp [cmdCp, h, Except.isOk, Except.toBool]

/-- Witness for C9 at a concrete three-token cp line. -/
theorem C9_cmdCp_never_copies_witness :
    cmdCp false ["cp".data, "a".data, "b".data] = .error .cpNotImplemented :=
  C9_cmdCp_never_copies.1 false ["cp".data, "a".data, "b".data] (by decide)

/-- C5 counterexample: for the cd builtin with an existing target directory
and negation flag true, the claim's biconditional (the line fails iff the
raw success equals the flag) is false: the un-negated run succeeds (raw
success is true, equal to the flag) yet the negated run is not a failure,
because cmdCD never consults its negation parameter. -/
theorem C5_negation_counterexample :
    ¬ (((cmdCD (fun p => if p = "/w/sub".data then .dir else .notExist) true
          ["cd".data, "sub".data] ⟨"/w".data, "/w".data, [], [], []⟩).isOk = false)
        ↔ ((cmdCD (fun p => if p = "/w/sub".data then .dir else .notExist) false
          ["cd".data, "sub".data] ⟨"/w".data, "/w".data, [], [], []⟩).isOk = true)) := by
  decide

/-- C5 amended: the handlers that consult the negation flag — exists, grep
with a readable file, stdout, stderr, and exec's exit-status outcome —
fail exactly when the raw outcome equals the flag, while cmdCD ignores the
flag entirely (its result is identical for both flag values, so a
succeeding cd under a bang prefix is not reported as a failure). -/
theorem C5_negation_per_handler :
    (∀ stat args st, cmdCD stat true args st = cmdCD stat false args st) ∧
    (∀ statOk neg f, (cmdExists statOk neg ["exists".data, f]).isOk = (statOk f != neg)) ∧
    (∀ content pattern neg fname,
      (cmdGrep (fun _ => some content) neg ["grep".data, pattern, fname]).isOk
        = (containsSub content pattern != neg)) ∧
    (∀ st pattern neg,
      (cmdStdout neg ["stdout".data, pattern] st).isOk = (containsSub st.stdout pattern != neg)) ∧
    (∀ st pattern neg,
      (cmdStderr neg ["stderr".data, pattern] st).isOk = (containsSub st.stderr pattern != neg)) ∧
    (∀ r js jo je o e neg prog st,
      (cmdExecBuiltin r (.success o e) js jo je neg ["exec".data, prog] st).isOk = !neg ∧
      (cmdExecBuiltin r (.exitErr o e) js jo je neg ["exec".data, prog] st).isOk = neg) := by
  refine ⟨?_, ?_, ?_, ?_, ?_, ?_⟩
  · intro stat args st
    rfl
  · intro statOk neg f
    cases hneg : neg <;> cases hs : statOk f <;>
      simp [cmdExists, hs, Except.isOk, Except.toBool]
  · intro content pattern neg fname
    cases hneg : neg <;> cases hm : containsSub content pattern <;>
      simp [cmdGrep, hm, Except.isOk, Except.toBool]
  · intro st pattern neg
    cases hneg : neg <;> cases hm : containsSub st.stdout pattern <;>
      simp [cmdStdout, hm, Except.isOk, Except.toBool]
  · intro st pattern neg
    cases hneg : neg <;> cases hm : containsSub st.stderr pattern <;>
      simp [cmdStderr, hm, Except.isOk, Except.toBool]
  · intro r js jo je o e neg prog st
    cases hneg : neg <;>
      simp [cmdExecBuiltin, Except.isOk, Except.toBool]

/-- C2 counterexample: without the all flag, a count of one with an
always-failing wrapped command executes exactly one iteration — the full
count — even though that iteration fails, so executing exactly COUNT
iterations does not imply that no iteration failed. -/
theorem C2_exactly_k_only_if_counterexample :
    ¬ ((repeatLoop false (fun _ => false) 1 1).executed = 1 →
        (repeatLoop false (fun _ => false) 1 1).failed = 0) := by
  decide

/-- C2 amended: with the all flag the loop executes exactly COUNT
iterations whatever the outcomes; without it the loop executes at most
COUNT iterations, and exactly COUNT when every iteration passes; a wrapped
verb other than exec or http is the fatal bad-verb error for every outcome
oracle, i.e. before any iteration is consulted. -/
theorem C2_repeat_iteration_counts :
    (∀ k f i, (repeatLoop true f i k).executed = k) ∧
    (∀ k f i, (repeatLoop false f i k).executed ≤ k) ∧
    (∀ k f i, (∀ j, i ≤ j → j < i + k → f j = true) →
      (repeatLoop false f i k).executed = k) ∧
    (∀ all k v f, ¬ (v = "exec".data ∨ v = "http".data) →
      repeatRun all k v f = .error .repeatBadVerb) := by
  refine ⟨?_, ?_, ?_, ?_⟩
  · intro k
    induction k with
    | zero => intro f i; rfl
    | succ r ih =>
      intro f i
      by_cases h : f i <;> simp [repeatLoop, h, ih]
  · intro k
    induction k with
    | zero => intro f i; simp [repeatLoop]
    | succ r ih =>
      intro f i
      by_cases h : f i <;> simp [repeatLoop, h]
      · exact ih f (i + 1)
  · intro k
    induction k with
    | zero => intro f i _; rfl
    | succ r ih =>
      intro f i hall
      have hi : f i = true := hall i (Nat.le_refl i) (by omega)
      simp [repeatLoop, hi]
      exact ih f (i + 1) (fun j h1 h2 => hall j (by omega) (by omega))
  · intro all k v f hv
    simp [repeatRun, hv]

/-- Witness for C2 amended: three all-pass iterations without the all flag
execute exactly three times, and wrapping the cd verb is the bad-verb
error. -/
theorem C2_repeat_iteration_counts_witness :
    (repeatLoop false (fun _ => true) 1 3).executed = 3 ∧
    repeatRun true 2 ("cd".data) (fun _ => true) = .error .repeatBadVerb :=
  ⟨C2_repeat_iteration_counts.2.2.1 3 (fun _ => true) 1 (fun _ _ _ => rfl),
   C2_repeat_iteration_counts.2.2.2 true 2 ("cd".data) (fun _ => true) (by decide)⟩

/-- C3: httpstatus and httpheader are the fatal no-prior-call usage error
on the empty retained state; a completed http call retains exactly its own
response, and on a retained response the two assertions consult that
response's status and header mapping. -/
theorem C3_http_assertions_need_prior_call :
    (∀ code, cmdHttpStatus code none = .error .httpNoPrior) ∧
    (∀ n v, cmdHttpHeader n v none = .error .httpNoPrior) ∧
    (∀ resp neg st st1, cmdHttp resp neg st = .ok st1 → st1 = some resp) ∧
    (∀ r code, cmdHttpStatus code (some r)
      = if r.status = code then .ok () else .error .httpStatusMismatch) ∧
    (∀ r n v, cmdHttpHeader n v (some r)
      = if containsSub (headerGet r.header n) v then .ok ()
        else .error .httpHeaderMismatch) := by
  refine ⟨fun code => rfl, fun n v => rfl, ?_, fun r code => rfl, fun r n v => rfl⟩
  intro resp neg st st1 h
  by_cases hs : (decide (200 ≤ resp.status) && decide (resp.status < 300)) = neg
  · simp [cmdHttp, hs] at h
  · simp [cmdHttp, hs] at h
    exact h.symm

/-- Witness for C3: a 404 response retained by a negated http call is what
httpstatus then consults. -/
theorem C3_http_assertions_need_prior_call_witness :
    cmdHttp ⟨404, [], "not found".data⟩ true none = .ok (some ⟨404, [], "not found".data⟩) ∧
    (some ⟨404, [], "not found".data⟩ : Option HttpResp) = some ⟨404, [], "not found".data⟩ :=
  ⟨by decide,
   C3_http_assertions_need_prior_call.2.2.1 ⟨404, [], "not found".data⟩ true none
     (some ⟨404, [], "not found".data⟩) (by decide)⟩

/-- The find used by the registry returns none exactly when no live job
has the name. -/
theorem findBackground_eq_none (n : List Char) (bgs : List BgJob) :
    findBackground n bgs = none ↔ ∀ bg ∈ bgs, bg.name ≠ n := by
  simp [findBackground, List.find?_eq_none]

/-- C7: computing the spawn name (explicit, or implicit from the live-job
count) and finding it among live jobs makes the spawn the fatal
duplicate-name error; and any dispatch of cmdExecBuiltin that returns
normally preserves distinctness of live-job names. -/
theorem C7_spawn_name_uniqueness :
    (∀ resolveOk fg js jo je neg args (st : TestScriptState),
      2 < args.length →
      isBackgroundSpecifier (args.getLast?.getD []) = true →
      (findBackground (bgNameOf (args.getLast?.getD []) st.background.length)
        st.background).isSome = true →
      cmdExecBuiltin resolveOk fg js jo je neg args st = .error .duplicateBgName) ∧
    (∀ resolveOk fg js jo je neg args (st st1 : TestScriptState),
      (st.background.map BgJob.name).Nodup →
      cmdExecBuiltin resolveOk fg js jo je neg args st = .ok st1 →
      (st1.background.map BgJob.name).Nodup) := by
  constructor
  · intro resolveOk fg js jo je neg args st h1 h2 h3
    have hlt : ¬ (args.length < 2) := by omega
    simp only [cmdExecBuiltin, if_neg hlt]
    rw [if_pos]
    · rw [if_pos]
      simp [h3]
    · simp [h1, h2]
  · intro resolveOk fg js jo je neg args st st1 hnd hok
    by_cases hlt : args.length < 2
    · simp [cmdExecBuiltin, hlt] at hok
    · by_cases hbg : (decide (2 < args.length)
          && isBackgroundSpecifier (args.getLast?.getD [])) = true
      · simp only [cmdExecBuiltin, if_neg hlt, hbg, if_true] at hok
        by_cases hdup : (findBackground (bgNameOf (args.getLast?.getD [])
            st.background.length) st.background).isSome = true
        · simp [hdup] at hok
        · simp only [hdup, Bool.false_eq_true, if_false] at hok
          by_cases hres : resolveOk = true
          · simp only [hres, if_true] at hok
            by_cases hneg : neg = true
            · simp [hneg] at hok
            · simp only [hneg, Bool.false_eq_true, if_false, Except.ok.injEq] at hok
              subst hok
              have hnone : findBackground (bgNameOf (args.getLast?.getD [])
                  st.background.length) st.background = none := by
                cases hfb : findBackground (bgNameOf (args.getLast?.getD [])
                    st.background.length) st.background with
                | none => rfl
                | some bg => rw [hfb] at hdup; simp at hdup
              rw [findBackground_eq_none] at hnone
              simp only [List.map_append, List.map_cons, List.map_nil]
              rw [List.nodup_append]
              refine ⟨hnd, List.nodup_singleton _, ?_⟩
              intro a ha hmem
              simp at hmem
              subst hmem
              rw [List.mem_map] at ha
              obtain ⟨bg, hbg2, hbgname⟩ := ha
              exact hnone bg hbg2 hbgname
          · simp [hres] at hok
      · simp only [cmdExecBuiltin, if_neg hlt, hbg, Bool.false_eq_true, if_false] at hok
        cases fg with
        | startErr => simp at hok
        | exitErr o e =>
          by_cases hneg : neg = true <;> simp [hneg] at hok <;> try exact absurd hok (by simp)
          · subst hok
            exact hnd
        | success o e =>
          by_cases hneg : neg = true <;> simp [hneg] at hok
          · subst hok
            exact hnd

/-- When live-job names are distinct, deleting the first entry with a name
deletes exactly the entries with that name. -/
theorem removeBackground_eq_filter (n : List Char) :
    ∀ bgs : List BgJob, (bgs.map BgJob.name).Nodup →
      removeBackground n bgs = bgs.filter (fun bg => bg.name != n) := by
  intro bgs
  induction bgs with
  | nil => intro _; rfl
  | cons bg rest ih =>
    intro hnd
    simp only [List.map_cons, List.nodup_cons] at hnd
    by_cases hbg : bg.name = n
    · rw [show removeBackground n (bg :: rest) = rest by simp [removeBackground, hbg]]
      rw [show (bg :: rest).filter (fun bg => bg.name != n)
            = rest.filter (fun bg => bg.name != n) by simp [List.filter_cons, hbg]]
      rw [eq_comm, List.filter_eq_self]
      intro a ha
      simp only [bne_iff_ne, ne_eq]
      intro han
      apply hnd.1
      rw [hbg, ← han]
      exact List.mem_map_of_mem BgJob.name ha
    · rw [show removeBackground n (bg :: rest) = bg :: removeBackground n rest by
          simp [removeBackground, hbg]]
      rw [show (bg :: rest).filter (fun bg => bg.name != n)
            = bg :: rest.filter (fun bg => bg.name != n) by simp [List.filter_cons, hbg]]
      rw [ih hnd.2]

/-- Filtering the registry preserves distinctness of its names. -/
theorem filter_names_nodup (p : BgJob → Bool) (bgs : List BgJob)
    (h : (bgs.map BgJob.name).Nodup) : ((bgs.filter p).map BgJob.name).Nodup := by
  exact h.sublist ((bgs.filter_sublist).map BgJob.name)

/-- The removal loop at the end of cmdWait removes exactly the entries
whose name is among the requested names, when live names are distinct. -/
theorem foldl_removeBackground_eq_filter :
    ∀ (names : List (List Char)) (bgs : List BgJob), (bgs.map BgJob.name).Nodup →
      names.foldl (fun acc n => removeBackground n acc) bgs
        = bgs.filter (fun bg => !(names.contains bg.name)) := by
  intro names
  induction names with
  | nil =>
    intro bgs _
    simp [List.filter_eq_self]
  | cons n ns ih =>
    intro bgs hnd
    simp only [List.foldl_cons]
    rw [removeBackground_eq_filter n bgs hnd]
    rw [ih _ (filter_names_nodup _ _ hnd)]
    rw [List.filter_filter]
    apply List.filter_congr
    intro bg _
    simp only [List.contains_cons]
    cases hn : bg.name == n <;> cases hns : ns.contains bg.name <;>
      simp [bne, hn, hns]

/-- If a requested name has no live job, the lookup loop fails before any
job is joined. -/
theorem lookupJobs_error_of_missing :
    ∀ (names : List (List Char)) (bgs : List BgJob) n, n ∈ names →
      findBackground n bgs = none →
      lookupJobs bgs names = .error .unknownBgProcess := by
  intro names
  induction names with
  | nil => intro bgs n hn; cases hn
  | cons m ms ih =>
    intro bgs n hn hnone
    rcases List.mem_cons.mp hn with h | h
    · subst h
      simp [lookupJobs, hnone]
    · cases hm : findBackground m bgs with
      | none => simp [lookupJobs, hm]
      | some bg =>
        simp only [lookupJobs, hm]
        rw [ih bgs n h hnone]

/-- C6: a no-argument wait that completes leaves the registry empty; a
named wait that completes removes exactly the entries with the requested
names and keeps every other entry unchanged (in place and in order); and a
named wait whose argument names no live job never completes normally. -/
theorem C6_wait_registry :
    (∀ st st1, cmdWait [("wait".data)] st = .ok st1 → st1.background = []) ∧
    (∀ names (st st1 : TestScriptState), names ≠ [] →
      (st.background.map BgJob.name).Nodup →
      cmdWait (("wait".data) :: names) st = .ok st1 →
      st1.background = st.background.filter (fun bg => !(names.contains bg.name))) ∧
    (∀ names (st : TestScriptState) n, n ∈ names →
      findBackground n st.background = none →
      (cmdWait (("wait".data) :: names) st).isOk = false) := by
  refine ⟨?_, ?_, ?_⟩
  · intro st st1 hok
    have hlen : ([("wait".data)].length = 1) := rfl
    simp only [cmdWait, if_pos hlen] at hok
    split at hok
    · cases hok
    · simp only [Except.ok.injEq] at hok
      rw [← hok]
  · intro names st st1 hne hnd hok
    have hlen : ¬ ((("wait".data) :: names).length = 1) := by
      simp only [List.length_cons]
      intro h
      exact hne (List.length_eq_zero.mp (by omega))
    simp only [cmdWait, if_neg hlen, List.tail_cons] at hok
    split at hok
    · cases hok
    · split at hok
      · cases hok
      · simp only [Except.ok.injEq] at hok
        rw [← hok]
        exact foldl_removeBackground_eq_filter names st.background hnd
  · intro names st n hn hnone
    have hlen : ¬ ((("wait".data) :: names).length = 1) := by
      simp only [List.length_cons]
      intro h
      have : names = [] := List.length_eq_zero.mp (by omega)
      subst this
      cases hn
    simp only [cmdWait, if_neg hlen, List.tail_cons]
    rw [lookupJobs_error_of_missing names st.background n hn hnone]
    rfl

/-- Witness for C6 at a two-job registry: joining all clears it, joining
one removes exactly that one, and naming an unknown job fails. -/
theorem C6_wait_registry_witness :
    (cmdWait [("wait".data)]
      ⟨[], [], [], [], [⟨"a".data, false, "o".data, [], true⟩,
        ⟨"b".data, true, [], "e".data, false⟩]⟩).isOk = true ∧
    ((⟨[], [], "o".data, [], [⟨"b".data, true, [], "e".data, false⟩]⟩ :
        TestScriptState).background
      = [⟨"a".data, false, "o".data, [], true⟩,
         ⟨"b".data, true, [], "e".data, false⟩].filter
          (fun bg => !([("a".data)].contains bg.name))) ∧
    (cmdWait [("wait".data), ("c".data)]
      ⟨[], [], [], [], [⟨"a".data, false, "o".data, [], true⟩]⟩).isOk = false := by
  refine ⟨by decide, ?_, ?_⟩
  · exact C6_wait_registry.2.1 [("a".data)]
      ⟨[], [], [], [], [⟨"a".data, false, "o".data, [], true⟩,
        ⟨"b".data, true, [], "e".data, false⟩]⟩
      ⟨[], [], "o".data, [], [⟨"b".data, true, [], "e".data, false⟩]⟩
      (by decide) (by decide) (by decide)
  · exact C6_wait_registry.2.2 [("c".data)]
      ⟨[], [], [], [], [⟨"a".data, false, "o".data, [], true⟩]⟩
      ("c".data) (by decide) (by decide)

/-- Trimming does not change a string whose first and last characters are
not white space. -/
theorem trimSpace_sandwich (c d : Char) (l : List Char)
    (hc : goIsSpace c = false) (hd : goIsSpace d = false) :
    trimSpace (c :: (l ++ [d])) = c :: (l ++ [d]) := by
  unfold trimSpace
  rw [List.dropWhile_cons, hc]
  simp only [Bool.false_eq_true, if_false]
  rw [show (c :: (l ++ [d])).reverse = d :: (l.reverse ++ [c]) by simp]
  rw [List.dropWhile_cons, hd]
  simp only [Bool.false_eq_true, if_false]
  simp

/-- Splitting at the closing bracket of a bracket-free prefix. -/
theorem breakAt_append_cons (t : Char) :
    ∀ pre post, t ∉ pre → breakAt t (pre ++ t :: post) = some (pre, post) := by
  intro pre
  induction pre with
  | nil => intro post _; simp [breakAt]
  | cons c cs ih =>
    intro post hmem
    have hc : ¬ (c = t) := fun h => hmem (h ▸ List.mem_cons_self c cs)
    simp only [List.cons_append, breakAt, if_neg hc, List.append_eq]
    rw [ih post (fun h => hmem (List.mem_cons_of_mem c h))]
    rfl

/-- C10: a line that is exactly a bracketed tag is a no-op for every
condition evaluator — the evaluator is never consulted — while the same
tag followed by a command is processed through the evaluator, so an
evaluator error (such as the unknown-condition error) is fatal there. -/
theorem C10_bare_condition_is_noop :
    (∀ condEval envMap proc tag, (']' : Char) ∉ tag →
      parseLine condEval envMap proc ('[' :: (tag ++ [']'])) = .noop) ∧
    (∀ condEval envMap proc tag e, (']' : Char) ∉ tag → tag ≠ [] →
      condEval tag = .error e →
      parseLine condEval envMap proc ('[' :: (tag ++ [']', ' ', 'x'])) = .fatal e) := by
  constructor
  · intro condEval envMap proc tag htag
    rw [parseLine, trimSpace_sandwich '[' ']' tag (by decide) (by decide)]
    simp only [parseLineTrimmed]
    rw [if_neg (by decide : ¬ (('[' : Char) = '#'))]
    simp only [if_true]
    rw [show tag ++ [']'] = tag ++ ']' :: [] from rfl]
    rw [breakAt_append_cons ']' tag [] htag]
    rfl
  · intro condEval envMap proc tag e htag hne hcond
    rw [show ('[' :: (tag ++ [']', ' ', 'x'])) = '[' :: ((tag ++ [']', ' ']) ++ ['x']) by simp]
    rw [parseLine, trimSpace_sandwich '[' 'x' (tag ++ [']', ' ']) (by decide) (by decide)]
    simp only [parseLineTrimmed]
    rw [if_neg (by decide : ¬ (('[' : Char) = '#'))]
    simp only [if_true]
    rw [show tag ++ [']', ' '] ++ ['x'] = tag ++ ']' :: [' ', 'x'] by simp]
    rw [breakAt_append_cons ']' tag [' ', 'x'] htag]
    show runCond condEval envMap proc tag (trimSpace [' ', 'x']) = .fatal e
    rw [show trimSpace [' ', 'x'] = ['x'] from rfl]
    simp only [runCond, if_neg hne]
    rw [hcond]

/-- Expansion passes over a dollar-free prefix unchanged. -/
theorem expand_append_no_dollar (f : List Char → List Char) :
    ∀ pre s, ('$' : Char) ∉ pre → expand f (pre ++ s) = pre ++ expand f s := by
  intro pre
  induction pre with
  | nil => intro s _; rfl
  | cons c cs ih =>
    intro s hmem
    have hc : ¬ (c = '$') := fun h => hmem (h ▸ List.mem_cons_self c cs)
    rw [List.cons_append, expand.eq_2, if_neg hc]
    rw [ih s (fun h => hmem (List.mem_cons_of_mem c h))]
    rfl

/-- takeWhile runs through a block that satisfies the predicate. -/
theorem takeWhile_append_all (p : Char → Bool) :
    ∀ (l t : List Char), (∀ c ∈ l, p c = true) →
      (l ++ t).takeWhile p = l ++ t.takeWhile p := by
  intro l
  induction l with
  | nil => intro t _; rfl
  | cons c cs ih =>
    intro t h
    rw [List.cons_append, List.takeWhile_cons, h c (List.mem_cons_self c cs)]
    simp only [if_true]
    rw [ih t (fun a ha => h a (List.mem_cons_of_mem c ha))]
    rfl

/-- getShellName on a plain alphanumeric name: the whole name is consumed
when the following text does not extend the alphanumeric run. -/
theorem getShellName_alnum (c0 : Char) (cs post : List Char)
    (h0 : isAlphaNum c0 = true) (hsp : isShellSpecialVar c0 = false)
    (hall : ∀ c ∈ cs, isAlphaNum c = true)
    (hpost : post.takeWhile isAlphaNum = []) :
    getShellName ((c0 :: cs) ++ post) = (c0 :: cs, (c0 :: cs).length) := by
  have hbrace : ¬ (c0 = '{') := by
    intro h
    rw [h] at h0
    exact absurd h0 (by decide)
  have hrun : (c0 :: (cs ++ post)).takeWhile isAlphaNum = c0 :: cs := by
    rw [List.takeWhile_cons, h0]
    simp only [if_true]
    rw [takeWhile_append_all isAlphaNum cs post hall, hpost, List.append_nil]
  simp only [List.cons_append, getShellName, if_neg hbrace, hsp, Bool.false_eq_true,
    if_false, hrun]

/-- getShellName on a braced name: everything up to the closing brace is
the name, and the brace pair is part of the consumed width. -/
theorem getShellName_brace (name post : List Char)
    (hne : name ≠ []) (hmem : ('}' : Char) ∉ name) :
    getShellName ('{' :: (name ++ '}' :: post)) = (name, name.length + 2) := by
  cases name with
  | nil => exact absurd rfl hne
  | cons c0 cs =>
    have hc0 : ¬ (c0 = '}') := fun h => hmem (h ▸ List.mem_cons_self c0 cs)
    cases cs with
    | nil =>
      by_cases hsp : isShellSpecialVar c0 = true
      · simp [getShellName, hsp]
      · simp [getShellName, hsp, scanBraceName, breakAt, hc0]
    | cons c1 cs1 =>
      have hc1 : ¬ (c1 = '}') :=
        fun h => hmem (h ▸ List.mem_cons_of_mem c0 (List.mem_cons_self c1 cs1))
      have hbreak := breakAt_append_cons '}' (c0 :: c1 :: cs1) post hmem
      simp only [List.cons_append] at hbreak
      simp only [List.cons_append, getShellName, if_pos rfl, hc1, decide_eq_false,
        Bool.and_false, Bool.false_eq_true, if_false, scanBraceName, hbreak]
      simp

/-- Expanding a dollar-name reference substitutes the mapping's value for
the name and continues after it. -/
theorem expand_dollar_name (f : List Char → List Char) (c0 : Char) (cs post : List Char)
    (h0 : isAlphaNum c0 = true) (hsp : isShellSpecialVar c0 = false)
    (hall : ∀ c ∈ cs, isAlphaNum c = true)
    (hpost : post.takeWhile isAlphaNum = []) :
    expand f ('$' :: ((c0 :: cs) ++ post)) = f (c0 :: cs) ++ expand f post := by
  rw [expand.eq_2, if_pos rfl, getShellName_alnum c0 cs post h0 hsp hall hpost]
  dsimp only []
  rw [if_neg (by simp : ¬ ((c0 :: cs) = []))]
  rw [List.drop_left]

/-- Expanding a dollar-brace reference substitutes the mapping's value for
the braced name and continues after the closing brace. -/
theorem expand_dollar_brace (f : List Char → List Char) (name post : List Char)
    (hne : name ≠ []) (hmem : ('}' : Char) ∉ name) :
    expand f ('$' :: '{' :: (name ++ '}' :: post)) = f name ++ expand f post := by
  rw [expand.eq_2, if_pos rfl, getShellName_brace name post hne hmem]
  dsimp only []
  rw [if_neg hne]
  have hdrop : List.drop (name.length + 2) ('{' :: (name ++ '}' :: post)) = post := by
    have h1 : '{' :: (name ++ '}' :: post) = ('{' :: (name ++ ['}'])) ++ post := by simp
    have h2 : name.length + 2 = ('{' :: (name ++ ['}'])).length := by simp
    rw [h1, h2]
    exact List.drop_left _ _
  rw [hdrop]

/-- C8: substitution happens before tokenization (parse is field-splitting
of the expanded line); a dollar-name or dollar-brace occurrence expands in
place to the mapping's value; and the mapping consults the script-local
environment first, falls back to the process environment when the key is
absent there, and yields the empty string when both lookups fail. -/
theorem C8_env_expansion_resolution :
    (∀ envMap proc line, parse envMap proc line
        = fields (expand (envVarMapping envMap proc) line)) ∧
    (∀ envMap proc pre c0 cs post, ('$' : Char) ∉ pre →
      isAlphaNum c0 = true → isShellSpecialVar c0 = false →
      (∀ c ∈ cs, isAlphaNum c = true) →
      post.takeWhile isAlphaNum = [] →
      expandEnvVars envMap proc (pre ++ '$' :: ((c0 :: cs) ++ post))
        = pre ++ (envVarMapping envMap proc (c0 :: cs) ++ expandEnvVars envMap proc post)) ∧
    (∀ envMap proc pre name post, ('$' : Char) ∉ pre → name ≠ [] → ('}' : Char) ∉ name →
      expandEnvVars envMap proc (pre ++ '$' :: '{' :: (name ++ '}' :: post))
        = pre ++ (envVarMapping envMap proc name ++ expandEnvVars envMap proc post)) ∧
    (∀ envMap proc k v, envLookup envMap k = some v → envVarMapping envMap proc k = v) ∧
    (∀ envMap proc k, envLookup envMap k = none →
      envVarMapping envMap proc k = getenv proc k) ∧
    (∀ envMap proc k, envLookup envMap k = none → envLookup proc k = none →
      envVarMapping envMap proc k = []) := by
  refine ⟨fun envMap proc line => rfl, ?_, ?_, ?_, ?_, ?_⟩
  · intro envMap proc pre c0 cs post hpre h0 hsp hall hpost
    unfold expandEnvVars
    rw [expand_append_no_dollar (envVarMapping envMap proc) pre ('$' :: ((c0 :: cs) ++ post)) hpre]
    rw [expand_dollar_name (envVarMapping envMap proc) c0 cs post h0 hsp hall hpost]
  · intro envMap proc pre name post hpre hne hmem
    unfold expandEnvVars
    rw [expand_append_no_dollar (envVarMapping envMap proc) pre
      ('$' :: '{' :: (name ++ '}' :: post)) hpre]
    rw [expand_dollar_brace (envVarMapping envMap proc) name post hne hmem]
  · intro envMap proc k v h
    simp [envVarMapping, h]
  · intro envMap proc k h
    simp [envVarMapping, h]
  · intro envMap proc k h1 h2
    simp [envVarMapping, getenv, h1, h2]

/-- Witness for C8: a dollar-FOO reference resolves through the script
environment, a braced reference through the process-environment fallback,
and a name absent from both expands to the empty string. -/
theorem C8_env_expansion_resolution_witness :
    expandEnvVars [("FOO".data, "1".data)] [("BAR".data, "2".data)]
        ("a ".data ++ '$' :: (('F' :: "OO".data) ++ " b".data))
      = "a ".data ++ (envVarMapping [("FOO".data, "1".data)] [("BAR".data, "2".data)]
          ('F' :: "OO".data)
        ++ expandEnvVars [("FOO".data, "1".data)] [("BAR".data, "2".data)] (" b".data)) ∧
    expandEnvVars [("FOO".data, "1".data)] [("BAR".data, "2".data)]
        ([] ++ '$' :: '{' :: ("BAR".data ++ '}' :: " c".data))
      = [] ++ (envVarMapping [("FOO".data, "1".data)] [("BAR".data, "2".data)] ("BAR".data)
        ++ expandEnvVars [("FOO".data, "1".data)] [("BAR".data, "2".data)] (" c".data)) ∧
    envVarMapping [("FOO".data, "1".data)] [("BAR".data, "2".data)] ("NONE".data) = [] :=
  ⟨C8_env_expansion_resolution.2.1 [("FOO".data, "1".data)] [("BAR".data, "2".data)]
      ("a ".data) 'F' ("OO".data) (" b".data)
      (by decide) (by decide) (by decide) (by decide) (by decide),
   C8_env_expansion_resolution.2.2.1 [("FOO".data, "1".data)] [("BAR".data, "2".data)]
      [] ("BAR".data) (" c".data) (by decide) (by decide) (by decide),
   C8_env_expansion_resolution.2.2.2.2.2 [("FOO".data, "1".data)] [("BAR".data, "2".data)]
      ("NONE".data) (by decide) (by decide)⟩

/-- Witness for C10 with the unrecognized tag bogus and the built-in
condition evaluator: the bare bracketed line is a no-op, while the same
tag before a command is the fatal unknown-condition error. -/
theorem C10_bare_condition_is_noop_witness :
    parseLine (condition none ⟨false, false, false, true⟩) [] []
      ('[' :: ("bogus".data ++ [']'])) = .noop ∧
    parseLine (condition none ⟨false, false, false, true⟩) [] []
      ('[' :: ("bogus".data ++ [']', ' ', 'x'])) = .fatal .unknownCondition :=
  ⟨C10_bare_condition_is_noop.1 (condition none ⟨false, false, false, true⟩) [] []
      ("bogus".data) (by decide),
   C10_bare_condition_is_noop.2 (condition none ⟨false, false, false, true⟩) [] []
      ("bogus".data) .unknownCondition (by decide) (by decide)
      (by simp +decide [condition, conditionBuiltin])⟩

/-- Witness for C7: spawning a second job named x is the duplicate error,
and a successful spawn of a fresh name y preserves name distinctness. -/
theorem C7_spawn_name_uniqueness_witness :
    cmdExecBuiltin true .startErr true [] [] false
      ["exec".data, "prog".data, "&x".data]
      ⟨[], [], [], [], [⟨"x".data, false, [], [], true⟩]⟩ = .error .duplicateBgName ∧
    ((⟨[], [], [], [], [⟨"x".data, false, [], [], true⟩, ⟨"y".data, false, [], [], true⟩]⟩ :
        TestScriptState).background.map BgJob.name).Nodup :=
  ⟨C7_spawn_name_uniqueness.1 true .startErr true [] [] false
      ["exec".data, "prog".data, "&x".data]
      ⟨[], [], [], [], [⟨"x".data, false, [], [], true⟩]⟩
      (by decide) (by decide) (by decide),
   C7_spawn_name_uniqueness.2 true .startErr true [] [] false
      ["exec".data, "prog".data, "&y".data]
      ⟨[], [], [], [], [⟨"x".data, false, [], [], true⟩]⟩
      ⟨[], [], [], [], [⟨"x".data, false, [], [], true⟩, ⟨"y".data, false, [], [], true⟩]⟩
      (by decide) (by decide)⟩

end Tsar
